import Mathlib

/-!
Verification of the `sudoku-tester` crate (`src/lib.rs`): a 9×9 sudoku grid is
parsed from text (`FromStr for Sudoku`), rendered (`fmt::Display for Sudoku`)
and checked for duplicate digits in rows, columns and 3×3 boxes
(`Sudoku::validate`).

The Rust code is shallowly embedded as follows:

* the grid `[[u8; 9]; 9]` becomes `List (List Nat)` together with the
  well-formedness predicate `GridWF` (9 rows of 9 cells) that the Rust array
  type enforces;
* `str::lines` becomes `rustLines` (split at `'\n'`, strip one trailing `'\r'`
  from each terminated line, no empty final line for a trailing newline);
* the fallible parser becomes `fromStr : String → Except ParseError Sudoku`;
* `Sudoku::validate` consumes the grid by value and indexes three `seen`
  tables with `val - 1`; since `val` is an unsigned integer, `val = 0`
  underflows (and `val > 9` indexes out of bounds), which aborts the program.
  The embedding `validate : Sudoku → Option (Except _ Sudoku)` returns `none`
  exactly when the Rust code would panic, and `some result` otherwise.
-/

set_option maxRecDepth 4000

abbrev Sudoku := List (List Nat)

/-- `ParseError` from `src/lib.rs` (`WrongColumnSize` carries the row count,
faithfully to the source's naming quirk). -/
inductive ParseError where
  | WrongSymbol (c : Char)
  | WrongRowSize (index : Nat) (len : Nat)
  | WrongColumnSize (column_count : Nat)
  deriving DecidableEq, Repr

/-- `char::to_digit(10)`: the numeric value of a decimal digit character. -/
def rustToDigit (c : Char) : Option Nat :=
  if c.isDigit then some (c.toNat - 48) else none

/-- The per-row character loop of `from_str`:
`line.chars().map(|c| ...).try_collect::<Vec<u8>>()` — left to right,
stopping at the first character that is not a base-10 digit. -/
def decodeRow : List Char → Except ParseError (List Nat)
  | [] => .ok []
  | c :: cs =>
    match rustToDigit c with
    | some v => (decodeRow cs).map (fun vs => v :: vs)
    | none => .error (.WrongSymbol c)

/-- One row of `from_str`: decode all characters, then require exactly 9 of
them (`try_into` on `[u8; 9]`, reporting `WrongRowSize`). -/
def parseRow (index : Nat) (line : List Char) : Except ParseError (List Nat) :=
  match decodeRow line with
  | .error e => .error e
  | .ok vals =>
    if vals.length = 9 then .ok vals else .error (.WrongRowSize index vals.length)

/-- The row loop of `from_str`: `lines().enumerate().map(...).try_collect`,
short-circuiting at the first failing row. -/
def parseRows : Nat → List (List Char) → Except ParseError (List (List Nat))
  | _, [] => .ok []
  | index, l :: ls =>
    match parseRow index l with
    | .error e => .error e
    | .ok r =>
      match parseRows (index + 1) ls with
      | .error e => .error e
      | .ok rs => .ok (r :: rs)

/-- Split a character list at `'\n'`, returning the terminated lines and the
trailing unterminated segment. -/
def splitNL : List Char → List (List Char) × List Char
  | [] => ([], [])
  | c :: cs =>
    let r := splitNL cs
    if c = '\n' then ([] :: r.1, r.2)
    else
      match r.1 with
      | [] => ([], c :: r.2)
      | l :: ls => ((c :: l) :: ls, r.2)

/-- Drop one trailing `'\r'` (for a line that was terminated by `'\n'`). -/
def stripCR (l : List Char) : List Char :=
  if l.getLast? = some '\r' then l.dropLast else l

/-- `str::lines`: lines split at `'\n'` (or `'\r\n'`), the final line ending
being optional. -/
def rustLines (cs : List Char) : List (List Char) :=
  (splitNL cs).1.map stripCR ++ (if (splitNL cs).2.isEmpty then [] else [(splitNL cs).2])

/-- `Sudoku::from_str`. -/
def fromStr (s : String) : Except ParseError Sudoku :=
  match parseRows 0 (rustLines s.data) with
  | .error e => .error e
  | .ok rows =>
    if rows.length = 9 then .ok rows else .error (.WrongColumnSize rows.length)

/-- One row of the `Display` implementation: digits with a single `' '`
written before every cell except the first. -/
def dispRowChars (row : List Nat) : List Char :=
  row.enum.flatMap (fun p => (if 0 < p.1 then [' '] else []) ++ (Nat.repr p.2).data)

/-- All characters written by `Display`: each row followed by `writeln!`. -/
def displayChars (g : Sudoku) : List Char :=
  g.flatMap (fun row => dispRowChars row ++ ['\n'])

/-- `fmt::Display for Sudoku` as a string. -/
def display (g : Sudoku) : String := ⟨displayChars g⟩

/-- Remove the `' '` separators from a rendered grid. -/
def stripSpaces (s : String) : String := ⟨s.data.filter (fun c => c != ' ')⟩

/-- `ValidationErrorType` from `src/lib.rs`. -/
inductive ValidationErrorType where
  | Column (i : Nat)
  | Row (i : Nat)
  | Box (i : Nat)
  deriving DecidableEq, Repr

/-- `ValidationError` from `src/lib.rs` (the `Dublication` spelling is the
source's). `Indexes` (a `tinyvec::ArrayVec` of capacity 9) is embedded as a
plain list; its capacity bound is proved, not assumed. -/
inductive ValidationError where
  | Dublication (type_ : ValidationErrorType) (value : Nat)
      (indexes : List (Nat × Nat))
  deriving DecidableEq, Repr

def dupType : ValidationError → ValidationErrorType
  | .Dublication t _ _ => t

def dupValue : ValidationError → Nat
  | .Dublication _ v _ => v

def dupIndexes : ValidationError → List (Nat × Nat)
  | .Dublication _ _ l => l

/-- The per-slot state machine `Number` local to `Sudoku::validate`. -/
inductive Number where
  | Unknown
  | Present (row col : Nat)
  | Corrupted (indexes : List (Nat × Nat))
  deriving DecidableEq, Repr

/-- `Number::indicate`: record one more occurrence at `(r, c)`. -/
def Number.indicate : Number → Nat → Nat → Number
  | .Unknown, r, c => .Present r c
  | .Present r0 c0, r, c => .Corrupted [(r0, c0), (r, c)]
  | .Corrupted idxs, r, c => .Corrupted (idxs ++ [(r, c)])

/-- `Number::into_err`. -/
def Number.intoErr : Number → Nat → ValidationErrorType → Option ValidationError
  | .Corrupted idxs, v, t => some (.Dublication t v idxs)
  | _, _, _ => none

/-- The three 9×9 `seen` tables of `validate`, as total functions (the Rust
arrays are only ever indexed in bounds; out-of-bounds indexing is modelled by
the `none` result of `stepCell`). -/
structure Tables where
  rowSeen : Nat → Nat → Number
  colSeen : Nat → Nat → Number
  boxSeen : Nat → Nat → Number

def initTables : Tables :=
  ⟨fun _ _ => .Unknown, fun _ _ => .Unknown, fun _ _ => .Unknown⟩

def update2 (f : Nat → Nat → Number) (a b : Nat) (n : Number) : Nat → Nat → Number :=
  fun x y => if x = a ∧ y = b then n else f x y

/-- `(i / 3) * 3 + (j / 3)` from the cell loop of `validate`. -/
def boxIndex (i j : Nat) : Nat := i / 3 * 3 + j / 3

/-- One iteration of the cell loop of `validate`: `seen[.][val - 1].indicate(i, j)`
on all three tables. `val - 1` underflows for `val = 0` and indexes out of
bounds for `val > 9`; both panics are modelled by `none`. -/
def stepCell (T : Tables) (i j v : Nat) : Option Tables :=
  if 1 ≤ v ∧ v ≤ 9 then
    some ⟨update2 T.rowSeen i (v - 1) ((T.rowSeen i (v - 1)).indicate i j),
          update2 T.colSeen j (v - 1) ((T.colSeen j (v - 1)).indicate i j),
          update2 T.boxSeen (boxIndex i j) (v - 1) ((T.boxSeen (boxIndex i j) (v - 1)).indicate i j)⟩
  else none

/-- The cells of the grid in iteration order of the nested
`for (i, row) ... for (j, val)` loops: row-major `(i, j, val)` triples. -/
def cellsOf (g : Sudoku) : List (Nat × Nat × Nat) :=
  g.enum.flatMap (fun p => p.2.enum.map (fun q => (p.1, q.1, q.2)))

/-- The cell loop of `validate` over a list of cells. -/
def scanCells (l : List (Nat × Nat × Nat)) (acc : Option Tables) : Option Tables :=
  l.foldl (fun oT c => oT.bind (fun T => stepCell T c.1 c.2.1 c.2.2)) acc

/-- The `get_validation_errors!` macro: enumerate one seen table and keep the
`Corrupted` slots, `value` being the slot index plus 1. -/
def collectPart (f : Nat → Nat → Number) (mk : Nat → ValidationErrorType) : List ValidationError :=
  (List.range 9).flatMap
    (fun i => (List.range 9).filterMap (fun d => (f i d).intoErr (d + 1) (mk i)))

/-- `get_validation_errors!(row_seen, Row).chain(... Column).chain(... Box)`. -/
def collectErrs (T : Tables) : List ValidationError :=
  collectPart T.rowSeen .Row ++ collectPart T.colSeen .Column ++ collectPart T.boxSeen .Box

/-- `Iterator::collect::<Option<Vec<_>>>`. -/
def collectOption : List (Option α) → Option (List α)
  | [] => some []
  | o :: l => o.bind (fun a => (collectOption l).map (fun xs => a :: xs))

/-- `some_to_err::ErrOr::err_or`: `Some(e)` becomes `Err(e)`, `None` becomes
`Ok(ok)`. -/
def errOr (o : Option ε) (a : α) : Except ε α :=
  match o with
  | some e => .error e
  | none => .ok a

/-- `Sudoku::validate`. `none` models a panic of the cell loop. -/
def validate (g : Sudoku) : Option (Except (List ValidationError) Sudoku) :=
  (scanCells (cellsOf g) (some initTables)).map
    (fun T => errOr (collectOption ((collectErrs T).map some)) g)

/-- The shape invariant `[[u8; 9]; 9]` enforces in Rust. -/
def GridWF (g : Sudoku) : Prop := g.length = 9 ∧ ∀ row ∈ g, row.length = 9

/-- Every cell value of the grid satisfies `P`. -/
def allCells (g : Sudoku) (P : Nat → Prop) : Prop := ∀ row ∈ g, ∀ v ∈ row, P v

/-! ### Specification-side descriptions of the validator's output -/

def giRow (c : Nat × Nat × Nat) : Nat := c.1

def giCol (c : Nat × Nat × Nat) : Nat := c.2.1

def giBox (c : Nat × Nat × Nat) : Nat := boxIndex c.1 c.2.1

/-- The coordinates, in scan order, of the cells of group `t` (under the group
index function `gi`) holding the value `v`. -/
def occValue (gi : Nat × Nat × Nat → Nat) (L : List (Nat × Nat × Nat)) (t v : Nat) :
    List (Nat × Nat) :=
  (L.filter (fun c => gi c == t && c.2.2 == v)).map (fun c => (c.1, c.2.1))

/-- The `Number` state reached after recording the given occurrence list. -/
def mkNumber : List (Nat × Nat) → Number
  | [] => .Unknown
  | [p] => .Present p.1 p.2
  | p :: q :: r => .Corrupted (p :: q :: r)

/-- What `collectPart` produces on the table whose slots hold the occurrence
lists of the cells `L`. -/
def specPart (gi : Nat × Nat × Nat → Nat) (mk : Nat → ValidationErrorType)
    (L : List (Nat × Nat × Nat)) : List ValidationError :=
  collectPart (fun t d => mkNumber (occValue gi L t (d + 1))) mk

/-- The full error list `validate` reports for `g` (proved below in
`validate_eq_spec`). -/
def specErrors (g : Sudoku) : List ValidationError :=
  specPart giRow .Row (cellsOf g) ++ specPart giCol .Column (cellsOf g) ++
    specPart giBox .Box (cellsOf g)

/-- The coordinates, in scan order, at which value `v` occurs in the rule
group named by `ty`. -/
def occurrences (g : Sudoku) : ValidationErrorType → Nat → List (Nat × Nat)
  | .Row t, v => occValue giRow (cellsOf g) t v
  | .Column t, v => occValue giCol (cellsOf g) t v
  | .Box t, v => occValue giBox (cellsOf g) t v

/-- Does `e` report a duplication of value `v` in the group named by `ty`? -/
def isDupB (ty : ValidationErrorType) (v : Nat) (e : ValidationError) : Bool :=
  dupType e == ty && dupValue e == v

/-- Full Sudoku placement rules: every digit 1–9 occurs exactly once in every
row, column and box. -/
def sudokuRules (g : Sudoku) : Prop :=
  GridWF g ∧ ∀ t, t < 9 → ∀ d, d < 9 →
    (occurrences g (.Row t) (d + 1)).length = 1 ∧
    (occurrences g (.Column t) (d + 1)).length = 1 ∧
    (occurrences g (.Box t) (d + 1)).length = 1

/-- All 81 cell coordinates in row-major order. -/
def allCoords : List (Nat × Nat) :=
  (List.range 9).flatMap (fun i => (List.range 9).map (fun j => (i, j)))

/-- Row-major (scan) order on coordinates. -/
def rmLt (p q : Nat × Nat) : Prop := p.1 < q.1 ∨ (p.1 = q.1 ∧ p.2 < q.2)

instance : DecidableRel rmLt := fun p q => by unfold rmLt; infer_instance

/-- The position of a violation kind in the fixed report order
Row, Column, Box. -/
def errRank : ValidationErrorType → Nat
  | .Row _ => 0
  | .Column _ => 1
  | .Box _ => 2

def groupIdx : ValidationErrorType → Nat
  | .Row t => t
  | .Column t => t
  | .Box t => t

/-- The claimed report order: by kind (Row, Column, Box), then by group index,
then by digit value. -/
def errLt (a b : ValidationError) : Prop :=
  errRank (dupType a) < errRank (dupType b) ∨
    (errRank (dupType a) = errRank (dupType b) ∧
      (groupIdx (dupType a) < groupIdx (dupType b) ∨
        (groupIdx (dupType a) = groupIdx (dupType b) ∧ dupValue a < dupValue b)))

/-! ### Concrete grids and inputs -/

/-- The all-ones grid of the repository's `test_wrong_sudoku`. -/
def onesGrid : Sudoku := List.replicate 9 (List.replicate 9 1)

/-- The grid of the repository's `test_parse` / `test_validate_sudoku` (a
valid sudoku except for the repeated 7 at the end of the last row). -/
def sudokuTestGrid : Sudoku :=
  [[5, 3, 4, 6, 7, 8, 9, 1, 2],
   [6, 7, 2, 1, 9, 5, 3, 4, 8],
   [1, 9, 8, 3, 4, 2, 5, 6, 7],
   [8, 5, 9, 7, 6, 1, 4, 2, 3],
   [4, 2, 6, 8, 5, 3, 7, 9, 1],
   [7, 1, 3, 9, 2, 4, 8, 5, 6],
   [9, 6, 1, 5, 3, 7, 2, 8, 4],
   [2, 8, 7, 4, 1, 9, 6, 3, 5],
   [3, 4, 5, 2, 8, 6, 1, 7, 7]]

/-- A fully valid sudoku grid. -/
def validGrid : Sudoku :=
  [[1, 2, 3, 4, 5, 6, 7, 8, 9],
   [4, 5, 6, 7, 8, 9, 1, 2, 3],
   [7, 8, 9, 1, 2, 3, 4, 5, 6],
   [2, 3, 4, 5, 6, 7, 8, 9, 1],
   [5, 6, 7, 8, 9, 1, 2, 3, 4],
   [8, 9, 1, 2, 3, 4, 5, 6, 7],
   [3, 4, 5, 6, 7, 8, 9, 1, 2],
   [6, 7, 8, 9, 1, 2, 3, 4, 5],
   [9, 1, 2, 3, 4, 5, 6, 7, 8]]

/-- A parseable input whose first cell is the digit `0`. -/
def zeroText : String :=
  "011111111\n111111111\n111111111\n111111111\n111111111\n111111111\n111111111\n111111111\n111111111"

/-- The grid `zeroText` parses to. -/
def zeroGrid : Sudoku :=
  [[0, 1, 1, 1, 1, 1, 1, 1, 1],
   [1, 1, 1, 1, 1, 1, 1, 1, 1],
   [1, 1, 1, 1, 1, 1, 1, 1, 1],
   [1, 1, 1, 1, 1, 1, 1, 1, 1],
   [1, 1, 1, 1, 1, 1, 1, 1, 1],
   [1, 1, 1, 1, 1, 1, 1, 1, 1],
   [1, 1, 1, 1, 1, 1, 1, 1, 1],
   [1, 1, 1, 1, 1, 1, 1, 1, 1],
   [1, 1, 1, 1, 1, 1, 1, 1, 1]]

/-! ### Decidability instances -/

instance : DecidableEq (Except ParseError Sudoku) := fun a b =>
  match a, b with
  | .error e1, .error e2 =>
    if h : e1 = e2 then isTrue (by rw [h]) else isFalse (fun hc => by cases hc; exact h rfl)
  | .error _, .ok _ => isFalse (fun hc => by cases hc)
  | .ok _, .error _ => isFalse (fun hc => by cases hc)
  | .ok g1, .ok g2 =>
    if h : g1 = g2 then isTrue (by rw [h]) else isFalse (fun hc => by cases hc; exact h rfl)

instance : DecidableEq (Except (List ValidationError) Sudoku) := fun a b =>
  match a, b with
  | .error e1, .error e2 =>
    if h : e1 = e2 then isTrue (by rw [h]) else isFalse (fun hc => by cases hc; exact h rfl)
  | .error _, .ok _ => isFalse (fun hc => by cases hc)
  | .ok _, .error _ => isFalse (fun hc => by cases hc)
  | .ok g1, .ok g2 =>
    if h : g1 = g2 then isTrue (by rw [h]) else isFalse (fun hc => by cases hc; exact h rfl)

instance (g : Sudoku) : Decidable (GridWF g) := by unfold GridWF; infer_instance

instance (g : Sudoku) (P : Nat → Prop) [DecidablePred P] : Decidable (allCells g P) := by
  unfold allCells; infer_instance

instance (g : Sudoku) : Decidable (sudokuRules g) := by unfold sudokuRules; infer_instance

instance : DecidableRel errLt := fun a b => by unfold errLt; infer_instance

/-! ### Basic lemmas about the embedded operations -/

theorem collectOption_map_some (l : List α) : collectOption (l.map some) = some l := by
  induction l with
  | nil => rfl
  | cons a l ih => simp [collectOption, ih]

theorem occValue_nil (gi : Nat × Nat × Nat → Nat) (t v : Nat) : occValue gi [] t v = [] := rfl

theorem occValue_cons (gi : Nat × Nat × Nat → Nat) (c : Nat × Nat × Nat)
    (L : List (Nat × Nat × Nat)) (t v : Nat) :
    occValue gi (c :: L) t v =
      (if gi c = t ∧ c.2.2 = v then [(c.1, c.2.1)] else []) ++ occValue gi L t v := by
  simp only [occValue, List.filter_cons]
  by_cases h1 : gi c = t <;> by_cases h2 : c.2.2 = v <;> simp [h1, h2]

theorem mkNumber_append (l : List (Nat × Nat)) (p : Nat × Nat) :
    mkNumber (l ++ [p]) = (mkNumber l).indicate p.1 p.2 := by
  match l with
  | [] => rfl
  | [q] => rfl
  | q :: r :: s => simp [mkNumber, Number.indicate]

theorem scanCells_cons (c : Nat × Nat × Nat) (l : List (Nat × Nat × Nat)) (acc : Option Tables) :
    scanCells (c :: l) acc = scanCells l (acc.bind (fun T => stepCell T c.1 c.2.1 c.2.2)) := rfl

theorem scanCells_none (l : List (Nat × Nat × Nat)) : scanCells l none = none := by
  induction l with
  | nil => rfl
  | cons c l ih => rw [scanCells_cons]; exact ih

/-- The main invariant of the cell loop: if every slot of the three tables
holds the `Number` state of a previous occurrence list, then after scanning
`l` every slot holds the state of that list extended by the occurrences in
`l`, and the loop does not panic. -/
theorem scanCells_inv : ∀ (l : List (Nat × Nat × Nat)) (T : Tables)
    (R C B : Nat → Nat → List (Nat × Nat)),
    (∀ c ∈ l, 1 ≤ c.2.2 ∧ c.2.2 ≤ 9) →
    (∀ t d, T.rowSeen t d = mkNumber (R t d)) →
    (∀ t d, T.colSeen t d = mkNumber (C t d)) →
    (∀ t d, T.boxSeen t d = mkNumber (B t d)) →
    ∃ T', scanCells l (some T) = some T' ∧
      (∀ t d, T'.rowSeen t d = mkNumber (R t d ++ occValue giRow l t (d + 1))) ∧
      (∀ t d, T'.colSeen t d = mkNumber (C t d ++ occValue giCol l t (d + 1))) ∧
      (∀ t d, T'.boxSeen t d = mkNumber (B t d ++ occValue giBox l t (d + 1))) := by
  intro l
  induction l with
  | nil =>
    intro T R C B _ hR hC hB
    exact ⟨T, rfl, fun t d => by rw [hR]; simp [occValue_nil],
      fun t d => by rw [hC]; simp [occValue_nil],
      fun t d => by rw [hB]; simp [occValue_nil]⟩
  | cons c l ih =>
    rintro T R C B hrange hR hC hB
    obtain ⟨i, j, v⟩ := c
    have hv : 1 ≤ v ∧ v ≤ 9 := hrange (i, j, v) (List.mem_cons_self _ _)
    have hstep : stepCell T i j v =
        some ⟨update2 T.rowSeen i (v - 1) ((T.rowSeen i (v - 1)).indicate i j),
              update2 T.colSeen j (v - 1) ((T.colSeen j (v - 1)).indicate i j),
              update2 T.boxSeen (boxIndex i j) (v - 1)
                ((T.boxSeen (boxIndex i j) (v - 1)).indicate i j)⟩ := by
      unfold stepCell; rw [if_pos hv]
    rw [scanCells_cons]
    simp only [Option.some_bind, hstep]
    have key : ∀ (f : Nat → Nat → Number) (F : Nat → Nat → List (Nat × Nat)) (a : Nat),
        (∀ t d, f t d = mkNumber (F t d)) →
        ∀ t d, update2 f a (v - 1) ((f a (v - 1)).indicate i j) t d =
          mkNumber (F t d ++ (if a = t ∧ v = d + 1 then [(i, j)] else [])) := by
      intro f F a hf t d
      unfold update2
      by_cases h : t = a ∧ d = v - 1
      · obtain ⟨rfl, rfl⟩ := h
        rw [if_pos ⟨rfl, rfl⟩, if_pos ⟨rfl, by omega⟩, hf,
          ← mkNumber_append (F t (v - 1)) (i, j)]
      · rw [if_neg h, if_neg (by intro hc; exact h ⟨hc.1.symm, by omega⟩), hf]
        simp
    obtain ⟨T', hT', hR', hC', hB'⟩ := ih
      ⟨update2 T.rowSeen i (v - 1) ((T.rowSeen i (v - 1)).indicate i j),
       update2 T.colSeen j (v - 1) ((T.colSeen j (v - 1)).indicate i j),
       update2 T.boxSeen (boxIndex i j) (v - 1)
         ((T.boxSeen (boxIndex i j) (v - 1)).indicate i j)⟩
      (fun t d => R t d ++ (if i = t ∧ v = d + 1 then [(i, j)] else []))
      (fun t d => C t d ++ (if j = t ∧ v = d + 1 then [(i, j)] else []))
      (fun t d => B t d ++ (if boxIndex i j = t ∧ v = d + 1 then [(i, j)] else []))
      (fun c hc => hrange c (List.mem_cons_of_mem _ hc))
      (fun t d => key T.rowSeen R i hR t d)
      (fun t d => key T.colSeen C j hC t d)
      (fun t d => key T.boxSeen B (boxIndex i j) hB t d)
    refine ⟨T', hT', fun t d => ?_, fun t d => ?_, fun t d => ?_⟩
    · rw [hR' t d, occValue_cons]
      simp [giRow, List.append_assoc]
    · rw [hC' t d, occValue_cons]
      simp [giCol, List.append_assoc]
    · rw [hB' t d, occValue_cons]
      simp [giBox, List.append_assoc]

/-- On a grid whose cells are all in 1–9 the cell loop of `validate` runs to
completion and — because every collected error is wrapped in `Some` before
`collect::<Option<_>>()` — the result is always the `Err` branch of `err_or`,
holding exactly the duplications described by `specErrors`. -/
theorem validate_eq_spec (g : Sudoku)
    (hc : ∀ c ∈ cellsOf g, 1 ≤ c.2.2 ∧ c.2.2 ≤ 9) :
    validate g = some (.error (specErrors g)) := by
  obtain ⟨T', hscan, hR, hC, hB⟩ := scanCells_inv (cellsOf g) initTables
    (fun _ _ => []) (fun _ _ => []) (fun _ _ => []) hc
    (fun _ _ => rfl) (fun _ _ => rfl) (fun _ _ => rfl)
  have hrow : T'.rowSeen = fun t d => mkNumber (occValue giRow (cellsOf g) t (d + 1)) := by
    funext t d; rw [hR t d]; simp
  have hcol : T'.colSeen = fun t d => mkNumber (occValue giCol (cellsOf g) t (d + 1)) := by
    funext t d; rw [hC t d]; simp
  have hbox : T'.boxSeen = fun t d => mkNumber (occValue giBox (cellsOf g) t (d + 1)) := by
    funext t d; rw [hB t d]; simp
  unfold validate
  rw [hscan]
  have : collectErrs T' = specErrors g := by
    unfold collectErrs specErrors specPart
    rw [hrow, hcol, hbox]
  rw [Option.map_some', this, collectOption_map_some]
  rfl

/-- Scanning succeeds only if every visited cell value is in 1–9. -/
theorem scanCells_ranges : ∀ (l : List (Nat × Nat × Nat)) (acc : Option Tables) (T' : Tables),
    scanCells l acc = some T' → ∀ c ∈ l, 1 ≤ c.2.2 ∧ c.2.2 ≤ 9 := by
  intro l
  induction l with
  | nil => intro acc T' _ c hc; simp at hc
  | cons c l ih =>
    intro acc T' h c' hc'
    rw [scanCells_cons] at h
    rcases List.mem_cons.mp hc' with rfl | hmem
    · by_contra hcon
      cases acc with
      | none => rw [Option.none_bind, scanCells_none] at h; cases h
      | some T =>
        rw [Option.some_bind] at h
        have hnone : stepCell T c'.1 c'.2.1 c'.2.2 = none := by
          unfold stepCell; rw [if_neg hcon]
        rw [hnone, scanCells_none] at h
        cases h
    · exact ih _ _ h c' hmem

/-- A cell holding `0` (with every cell at most 9, as parsed values are)
makes the cell loop panic: `val - 1` underflows. -/
theorem scanCells_zero : ∀ (l : List (Nat × Nat × Nat)) (T : Tables),
    (∀ c ∈ l, c.2.2 ≤ 9) → (∃ c ∈ l, c.2.2 = 0) → scanCells l (some T) = none := by
  intro l
  induction l with
  | nil => rintro T _ ⟨c, hc, _⟩; simp at hc
  | cons c l ih =>
    rintro T hle ⟨c0, hc0, hv0⟩
    rw [scanCells_cons, Option.some_bind]
    rcases List.mem_cons.mp hc0 with rfl | hmem
    · have hnone : stepCell T c0.1 c0.2.1 c0.2.2 = none := by
        unfold stepCell; rw [if_neg (by omega)]
      rw [hnone, scanCells_none]
    · cases hstep : stepCell T c.1 c.2.1 c.2.2 with
      | none => rw [scanCells_none]
      | some T1 =>
        exact ih T1 (fun c' h' => hle c' (List.mem_cons_of_mem _ h')) ⟨c0, hmem, hv0⟩

/-! ### Membership and shape of `cellsOf` -/

theorem mem_enumFrom_snd {α : Type _} : ∀ {l : List α} {n : Nat} {p : Nat × α},
    p ∈ List.enumFrom n l → p.2 ∈ l := by
  intro l
  induction l with
  | nil => intro n p hp; simp [List.enumFrom] at hp
  | cons a l ih =>
    intro n p hp
    rcases List.mem_cons.mp hp with rfl | hmem
    · exact List.mem_cons_self _ _
    · exact List.mem_cons_of_mem _ (ih hmem)

theorem mem_enumFrom_fst {α : Type _} : ∀ {l : List α} {n : Nat} {p : Nat × α},
    p ∈ List.enumFrom n l → p.1 < n + l.length := by
  intro l
  induction l with
  | nil => intro n p hp; simp [List.enumFrom] at hp
  | cons a l ih =>
    intro n p hp
    rcases List.mem_cons.mp hp with rfl | hmem
    · simp
    · have := ih hmem
      simp only [List.length_cons]
      omega

theorem mem_enumFrom_of_mem {α : Type _} : ∀ {l : List α} {a : α},
    a ∈ l → ∀ n, ∃ k, (k, a) ∈ List.enumFrom n l := by
  intro l
  induction l with
  | nil => intro a ha; simp at ha
  | cons b l ih =>
    intro a ha n
    rcases List.mem_cons.mp ha with rfl | hmem
    · exact ⟨n, List.mem_cons_self _ _⟩
    · obtain ⟨k, hk⟩ := ih hmem (n + 1)
      exact ⟨k, List.mem_cons_of_mem _ hk⟩

theorem mem_cellsOf_struct {g : Sudoku} {c : Nat × Nat × Nat} (hc : c ∈ cellsOf g) :
    ∃ row ∈ g, c.2.2 ∈ row ∧ c.1 < g.length ∧ c.2.1 < row.length := by
  obtain ⟨p, hp, hcp⟩ := List.mem_flatMap.mp hc
  obtain ⟨q, hq, rfl⟩ := List.mem_map.mp hcp
  refine ⟨p.2, mem_enumFrom_snd hp, mem_enumFrom_snd hq, ?_, ?_⟩
  · simpa using mem_enumFrom_fst hp
  · simpa using mem_enumFrom_fst hq

theorem allCells_cellsOf {g : Sudoku} {P : Nat → Prop} (h : allCells g P) :
    ∀ c ∈ cellsOf g, P c.2.2 := by
  intro c hc
  obtain ⟨row, hrow, hv, -, -⟩ := mem_cellsOf_struct hc
  exact h row hrow c.2.2 hv

theorem mem_cellsOf_of_mem {g : Sudoku} {row : List Nat} {v : Nat}
    (hrow : row ∈ g) (hv : v ∈ row) : ∃ i j, (i, j, v) ∈ cellsOf g := by
  obtain ⟨i, hi⟩ := mem_enumFrom_of_mem hrow 0
  obtain ⟨j, hj⟩ := mem_enumFrom_of_mem hv 0
  refine ⟨i, j, List.mem_flatMap.mpr ⟨(i, row), hi, List.mem_map.mpr ⟨(j, v), hj, rfl⟩⟩⟩

theorem cellsOf_bounds {g : Sudoku} (hwf : GridWF g) {c : Nat × Nat × Nat}
    (hc : c ∈ cellsOf g) : c.1 < 9 ∧ c.2.1 < 9 := by
  obtain ⟨row, hrow, -, h1, h2⟩ := mem_cellsOf_struct hc
  exact ⟨hwf.1 ▸ h1, hwf.2 row hrow ▸ h2⟩

/-- Projecting the scanned cells to their coordinates gives the full
row-major coordinate list of the 9×9 grid. -/
theorem cellsOf_map_proj {g : Sudoku} (hwf : GridWF g) :
    (cellsOf g).map (fun c => (c.1, c.2.1)) = allCoords := by
  unfold cellsOf allCoords
  rw [List.map_flatMap]
  have hrow : ∀ p ∈ g.enum, ((p.2.enum.map (fun q => (p.1, q.1, q.2))).map
      (fun c => (c.1, c.2.1))) = (List.range 9).map (fun j => (p.1, j)) := by
    intro p hp
    rw [List.map_map]
    have : ((fun c : Nat × Nat × Nat => (c.1, c.2.1)) ∘ (fun q : Nat × Nat => (p.1, q.1, q.2)))
        = (fun j : Nat => (p.1, j)) ∘ Prod.fst := rfl
    rw [this, ← List.map_map, List.enum_map_fst, hwf.2 p.2 (mem_enumFrom_snd hp)]
  rw [List.flatMap_congr hrow]
  have h2 : (g.enum.map Prod.fst).flatMap (fun i => (List.range 9).map (fun j => (i, j)))
      = g.enum.flatMap (fun p => (List.range 9).map (fun j => (p.1, j))) :=
    List.flatMap_map _ _ _
  rw [← h2, List.enum_map_fst, hwf.1]

/-! ### Structure of the reported error list -/

theorem intoErr_eq_some {n : Number} {v : Nat} {ty : ValidationErrorType} {e : ValidationError} :
    n.intoErr v ty = some e ↔ ∃ idxs, n = .Corrupted idxs ∧ e = .Dublication ty v idxs := by
  cases n with
  | Unknown => simp [Number.intoErr]
  | Present r c => simp [Number.intoErr]
  | Corrupted idxs => simp [Number.intoErr, eq_comm]

theorem mkNumber_corrupted {l idxs : List (Nat × Nat)} (h : mkNumber l = .Corrupted idxs) :
    idxs = l ∧ 2 ≤ l.length := by
  match l with
  | [] => cases h
  | [p] => cases h
  | p :: q :: r =>
    simp only [mkNumber, Number.Corrupted.injEq] at h
    simp [← h]

theorem mkNumber_of_two_le {l : List (Nat × Nat)} (h : 2 ≤ l.length) :
    mkNumber l = .Corrupted l := by
  match l with
  | [] => simp at h
  | [p] => simp at h
  | p :: q :: r => rfl

theorem mem_specPart {gi : Nat × Nat × Nat → Nat} {mk : Nat → ValidationErrorType}
    {L : List (Nat × Nat × Nat)} {e : ValidationError} :
    e ∈ specPart gi mk L ↔ ∃ t d, t < 9 ∧ d < 9 ∧ 2 ≤ (occValue gi L t (d + 1)).length ∧
      e = .Dublication (mk t) (d + 1) (occValue gi L t (d + 1)) := by
  unfold specPart collectPart
  simp only [List.mem_flatMap, List.mem_filterMap, List.mem_range]
  constructor
  · rintro ⟨t, ht, d, hd, hsome⟩
    obtain ⟨idxs, hcor, rfl⟩ := intoErr_eq_some.mp hsome
    obtain ⟨rfl, hlen⟩ := mkNumber_corrupted hcor
    exact ⟨t, d, ht, hd, hlen, rfl⟩
  · rintro ⟨t, d, ht, hd, hlen, rfl⟩
    refine ⟨t, ht, d, hd, ?_⟩
    rw [mkNumber_of_two_le hlen]
    rfl

theorem filter_specPart_ne (gi : Nat × Nat × Nat → Nat) (mk : Nat → ValidationErrorType)
    {L : List (Nat × Nat × Nat)} (ty : ValidationErrorType) (v : Nat)
    (h : ∀ t, mk t ≠ ty) : (specPart gi mk L).filter (isDupB ty v) = [] := by
  rw [List.filter_eq_nil_iff]
  intro e he
  obtain ⟨t, d, -, -, -, rfl⟩ := mem_specPart.mp he
  simp [isDupB, dupType, dupValue, h t]

theorem flatMap_range_single {α : Type _} (F : Nat → List α) (n t0 : Nat) (x : α)
    (ht0 : t0 < n) (hx : F t0 = [x]) (hothers : ∀ t, t < n → t ≠ t0 → F t = []) :
    (List.range n).flatMap F = [x] := by
  induction n with
  | zero => omega
  | succ n ih =>
    rw [List.range_succ, List.flatMap_append]
    rcases Nat.lt_succ_iff_lt_or_eq.mp ht0 with h | rfl
    · rw [ih h (fun t ht htne => hothers t (Nat.lt_succ_of_lt ht) htne),
        show List.flatMap [n] F = F n by simp,
        hothers n (Nat.lt_succ_self n) (by omega)]
      simp
    · have hpre : (List.range t0).flatMap F = [] :=
        List.flatMap_eq_nil_iff.mpr
          (fun t ht => hothers t (Nat.lt_succ_of_lt (List.mem_range.mp ht))
            (by have := List.mem_range.mp ht; omega))
      rw [hpre, show List.flatMap [t0] F = F t0 by simp, hx]
      rfl

theorem filterMap_filter_range_single {α : Type _} (G : Nat → Option α) (p : α → Bool)
    (n d0 : Nat) (x : α) (hd0 : d0 < n) (hx : G d0 = some x) (hpx : p x = true)
    (huniq : ∀ d, d < n → ∀ y, G d = some y → p y = true → d = d0) :
    ((List.range n).filterMap G).filter p = [x] := by
  induction n with
  | zero => omega
  | succ n ih =>
    rw [List.range_succ, List.filterMap_append, List.filter_append]
    rcases Nat.lt_succ_iff_lt_or_eq.mp hd0 with h | rfl
    · rw [ih h (fun d hd y hy hp => huniq d (Nat.lt_succ_of_lt hd) y hy hp)]
      have hlast : (List.filterMap G [n]).filter p = [] := by
        cases hGn : G n with
        | none => simp [hGn]
        | some y =>
          have hpy : p y = false := by
            by_contra hpy
            have hy : p y = true := by revert hpy; cases p y <;> simp
            have := huniq n (Nat.lt_succ_self n) y hGn hy
            omega
          simp [hGn, hpy]
      rw [hlast]
      simp
    · have hpre : ((List.range d0).filterMap G).filter p = [] := by
        rw [List.filter_eq_nil_iff]
        intro y hy hpy
        obtain ⟨d, hd, hGd⟩ := List.mem_filterMap.mp hy
        have := huniq d (Nat.lt_succ_of_lt (List.mem_range.mp hd)) y hGd (by simpa using hpy)
        have := List.mem_range.mp hd
        omega
      rw [hpre]
      simp [List.filterMap, hx, hpx]

theorem filter_specPart_eq (gi : Nat × Nat × Nat → Nat) (mk : Nat → ValidationErrorType)
    {L : List (Nat × Nat × Nat)} (t0 v : Nat)
    (hinj : ∀ a b, mk a = mk b → a = b)
    (hrange : ∀ c ∈ L, 1 ≤ c.2.2 ∧ c.2.2 ≤ 9)
    (hgi : ∀ c ∈ L, gi c < 9) :
    (specPart gi mk L).filter (isDupB (mk t0) v) =
      if 2 ≤ (occValue gi L t0 v).length then
        [.Dublication (mk t0) v (occValue gi L t0 v)] else [] := by
  by_cases h2 : 2 ≤ (occValue gi L t0 v).length
  · rw [if_pos h2]
    have hne : occValue gi L t0 v ≠ [] := by
      intro h; rw [h] at h2; simp at h2
    obtain ⟨p, hp⟩ := List.exists_mem_of_ne_nil _ hne
    obtain ⟨c, hcf, rfl⟩ := List.mem_map.mp (show p ∈ _ from hp)
    have hcL : c ∈ L := List.mem_of_mem_filter hcf
    have hcond := List.of_mem_filter hcf
    rw [Bool.and_eq_true, beq_iff_eq, beq_iff_eq] at hcond
    have ht0 : t0 < 9 := hcond.1 ▸ hgi c hcL
    have hv1 : 1 ≤ v := hcond.2 ▸ (hrange c hcL).1
    have hv9 : v ≤ 9 := hcond.2 ▸ (hrange c hcL).2
    unfold specPart collectPart
    rw [List.filter_flatMap]
    apply flatMap_range_single _ 9 t0 _ ht0
    · apply filterMap_filter_range_single _ _ 9 (v - 1) _ (by omega)
      · have hv' : v - 1 + 1 = v := by omega
        simp only [hv', mkNumber_of_two_le h2, Number.intoErr]
      · simp [isDupB, dupType, dupValue]
      · intro d hd y hy hpy
        obtain ⟨idxs, hcor, rfl⟩ := intoErr_eq_some.mp hy
        simp only [isDupB, dupType, dupValue, Bool.and_eq_true, beq_iff_eq] at hpy
        omega
    · intro t ht htne
      rw [List.filter_eq_nil_iff]
      intro e he hpe
      obtain ⟨d, hd, hGd⟩ := List.mem_filterMap.mp he
      obtain ⟨idxs, hcor, rfl⟩ := intoErr_eq_some.mp hGd
      simp only [isDupB, dupType, dupValue, Bool.and_eq_true, beq_iff_eq] at hpe
      exact htne (hinj t t0 hpe.1)
  · rw [if_neg h2, List.filter_eq_nil_iff]
    intro e he hpe
    obtain ⟨t, d, ht, hd, hlen, rfl⟩ := mem_specPart.mp he
    simp only [isDupB, dupType, dupValue, Bool.and_eq_true, beq_iff_eq] at hpe
    obtain ⟨hty, hval⟩ := hpe
    obtain rfl := hinj t t0 hty
    exact h2 (hval ▸ hlen)

theorem boxIndex_lt {i j : Nat} (hi : i < 9) (hj : j < 9) : boxIndex i j < 9 := by
  unfold boxIndex; omega

/-- The error list reported for a well-formed grid with cells in 1–9 contains,
for every rule group and value, exactly one `Dublication` — present exactly
when the value occurs at least twice in the group — carrying the full
occurrence list. -/
theorem filter_specErrors (g : Sudoku) (hwf : GridWF g)
    (hc : allCells g (fun v => 1 ≤ v ∧ v ≤ 9)) (ty : ValidationErrorType) (v : Nat) :
    (specErrors g).filter (isDupB ty v) =
      if 2 ≤ (occurrences g ty v).length then
        [.Dublication ty v (occurrences g ty v)] else [] := by
  have hrange : ∀ c ∈ cellsOf g, 1 ≤ c.2.2 ∧ c.2.2 ≤ 9 := allCells_cellsOf hc
  unfold specErrors
  rw [List.filter_append, List.filter_append]
  cases ty with
  | Row t0 =>
    rw [filter_specPart_eq giRow ValidationErrorType.Row t0 v (fun a b h => by injection h)
        hrange (fun c hcm => (cellsOf_bounds hwf hcm).1),
      filter_specPart_ne giCol ValidationErrorType.Column (.Row t0) v (fun t h => by simp at h),
      filter_specPart_ne giBox ValidationErrorType.Box (.Row t0) v (fun t h => by simp at h)]
    simp [occurrences]
  | Column t0 =>
    rw [filter_specPart_eq giCol ValidationErrorType.Column t0 v (fun a b h => by injection h)
        hrange (fun c hcm => (cellsOf_bounds hwf hcm).2),
      filter_specPart_ne giRow ValidationErrorType.Row (.Column t0) v (fun t h => by simp at h),
      filter_specPart_ne giBox ValidationErrorType.Box (.Column t0) v (fun t h => by simp at h)]
    simp [occurrences]
  | Box t0 =>
    rw [filter_specPart_eq giBox ValidationErrorType.Box t0 v (fun a b h => by injection h)
        hrange
        (fun c hcm => boxIndex_lt (cellsOf_bounds hwf hcm).1 (cellsOf_bounds hwf hcm).2),
      filter_specPart_ne giRow ValidationErrorType.Row (.Box t0) v (fun t h => by simp at h),
      filter_specPart_ne giCol ValidationErrorType.Column (.Box t0) v (fun t h => by simp at h)]
    simp [occurrences]

/-- Every reported `Dublication` carries exactly the occurrence list of its
group and value, and that value occurs at least twice there. -/
theorem specErrors_indexes {g : Sudoku} {ty : ValidationErrorType} {v : Nat}
    {idxs : List (Nat × Nat)} (hwf : GridWF g)
    (hc : allCells g (fun v => 1 ≤ v ∧ v ≤ 9))
    (hmem : ValidationError.Dublication ty v idxs ∈ specErrors g) :
    idxs = occurrences g ty v ∧ 2 ≤ (occurrences g ty v).length := by
  have hf := filter_specErrors g hwf hc ty v
  have hm : ValidationError.Dublication ty v idxs ∈ (specErrors g).filter (isDupB ty v) :=
    List.mem_filter.mpr ⟨hmem, by simp [isDupB, dupType, dupValue]⟩
  rw [hf] at hm
  by_cases h2 : 2 ≤ (occurrences g ty v).length
  · rw [if_pos h2] at hm
    have heq := List.mem_singleton.mp hm
    refine ⟨?_, h2⟩
    injection heq with h1 h2' h3
  · rw [if_neg h2] at hm
    simp at hm

/-- Claim C2: for every grid whose 81 cells all hold digits in 1–9, `validate`
returns an error list with exactly one `Dublication` per (rule group, digit)
pair in which that digit occurs at least twice, its coordinate list having
length equal to the occurrence count; the all-ones grid yields exactly 27
violations, each listing all 9 cells of its group. -/
theorem claim_C2_validation_completeness :
    (∀ g : Sudoku, GridWF g → allCells g (fun v => 1 ≤ v ∧ v ≤ 9) →
      ∃ E, validate g = some (.error E) ∧
        (∀ ty v, E.filter (isDupB ty v) =
          if 2 ≤ (occurrences g ty v).length then
            [.Dublication ty v (occurrences g ty v)] else []) ∧
        (∀ ty v idxs, ValidationError.Dublication ty v idxs ∈ E →
          idxs.length = (occurrences g ty v).length)) ∧
    (∃ E, validate onesGrid = some (.error E) ∧ E.length = 27 ∧
      ∀ e ∈ E, (dupIndexes e).length = 9) := by
  constructor
  · intro g hwf hc
    refine ⟨specErrors g, validate_eq_spec g (allCells_cellsOf hc),
      filter_specErrors g hwf hc, ?_⟩
    intro ty v idxs hmem
    rw [(specErrors_indexes hwf hc hmem).1]
  · exact ⟨specErrors onesGrid, validate_eq_spec onesGrid (by decide), by decide, by decide⟩

/-- Witness for C2 at the repository's own test grid: the Row 8 / value 7
violation is reported exactly once, with both occurrence coordinates. -/
theorem claim_C2_witness :
    (specErrors sudokuTestGrid).filter (isDupB (.Row 8) 7) =
      [ValidationError.Dublication (.Row 8) 7 (occurrences sudokuTestGrid (.Row 8) 7)] ∧
    validate sudokuTestGrid = some (.error (specErrors sudokuTestGrid)) := by
  obtain ⟨E, hE, hfilt, -⟩ :=
    claim_C2_validation_completeness.1 sudokuTestGrid (by decide) (by decide)
  have h1 := hE
  rw [validate_eq_spec sudokuTestGrid (by decide)] at h1
  have h2 := Option.some.inj h1
  have h3 : specErrors sudokuTestGrid = E := by injection h2
  subst h3
  refine ⟨?_, hE⟩
  rw [hfilt (.Row 8) 7, if_pos (by decide)]

/-- Claim C3 (code bug): a fully valid sudoku satisfies the placement rules,
yet `validate` returns `Err` with an *empty* violation list instead of
passing the grid through as `Ok`: every collected error is wrapped in `Some`
before `collect::<Option<_>>()`, so the collected option is always `Some`
(even for an empty error iterator) and `err_or` always takes the `Err`
branch. -/
theorem claim_C3_valid_grid_returns_error :
    sudokuRules validGrid ∧ validate validGrid = some (.error []) ∧
      validate validGrid ≠ some (.ok validGrid) := by
  have h := validate_eq_spec validGrid (by decide)
  rw [show specErrors validGrid = [] by decide] at h
  refine ⟨by decide, h, ?_⟩
  rw [h]
  simp

/-! ### Order of the reported violations -/

theorem validate_error_eq {g : Sudoku} {E : List ValidationError}
    (h : validate g = some (.error E)) : E = specErrors g := by
  obtain ⟨T, hT⟩ : ∃ T, scanCells (cellsOf g) (some initTables) = some T := by
    cases hs : scanCells (cellsOf g) (some initTables) with
    | none => rw [validate, hs] at h; cases h
    | some T => exact ⟨T, rfl⟩
  have hrange := scanCells_ranges _ _ _ hT
  have h2 := validate_eq_spec g hrange
  rw [h] at h2
  have h3 := Option.some.inj h2
  injection h3

theorem specPart_rank {gi : Nat × Nat × Nat → Nat} {mk : Nat → ValidationErrorType}
    {L : List (Nat × Nat × Nat)} {e : ValidationError} (r0 : Nat)
    (hrank : ∀ t, errRank (mk t) = r0) (he : e ∈ specPart gi mk L) :
    errRank (dupType e) = r0 := by
  obtain ⟨t, d, -, -, -, rfl⟩ := mem_specPart.mp he
  simp [dupType, hrank]

theorem pairwise_specPart (gi : Nat × Nat × Nat → Nat) (mk : Nat → ValidationErrorType)
    (L : List (Nat × Nat × Nat)) (r0 : Nat)
    (hrank : ∀ t, errRank (mk t) = r0) (hgrp : ∀ t, groupIdx (mk t) = t) :
    List.Pairwise errLt (specPart gi mk L) := by
  unfold specPart collectPart
  rw [List.pairwise_flatMap]
  constructor
  · intro t _
    rw [List.pairwise_filterMap]
    apply List.Pairwise.imp ?_ (List.pairwise_lt_range 9)
    intro d d' hdd' b hb b' hb'
    simp only [Option.mem_def] at hb hb'
    obtain ⟨idxs, -, rfl⟩ := intoErr_eq_some.mp hb
    obtain ⟨idxs', -, rfl⟩ := intoErr_eq_some.mp hb'
    right
    exact ⟨rfl, Or.inr ⟨rfl, by simp [dupValue]; omega⟩⟩
  · apply List.Pairwise.imp ?_ (List.pairwise_lt_range 9)
    intro t t' htt' b hb b' hb'
    obtain ⟨d, -, hGd⟩ := List.mem_filterMap.mp hb
    obtain ⟨d', -, hGd'⟩ := List.mem_filterMap.mp hb'
    obtain ⟨idxs, -, rfl⟩ := intoErr_eq_some.mp hGd
    obtain ⟨idxs', -, rfl⟩ := intoErr_eq_some.mp hGd'
    right
    refine ⟨by simp [dupType, hrank], Or.inl ?_⟩
    simp only [dupType, hgrp]
    exact htt'

/-- The report order always holds: Row violations, then Column, then Box;
ascending group index within a kind; ascending digit within a group. -/
theorem pairwise_specErrors (g : Sudoku) : List.Pairwise errLt (specErrors g) := by
  unfold specErrors
  rw [List.pairwise_append]
  refine ⟨?_,
    pairwise_specPart giBox ValidationErrorType.Box (cellsOf g) 2
      (fun t => rfl) (fun t => rfl), ?_⟩
  · rw [List.pairwise_append]
    refine ⟨pairwise_specPart giRow ValidationErrorType.Row (cellsOf g) 0
        (fun t => rfl) (fun t => rfl),
      pairwise_specPart giCol ValidationErrorType.Column (cellsOf g) 1
        (fun t => rfl) (fun t => rfl), ?_⟩
    intro a ha b hb
    left
    rw [specPart_rank 0 (fun _ => by rfl) ha, specPart_rank 1 (fun _ => by rfl) hb]
    omega
  · intro a ha b hb
    left
    rw [specPart_rank 2 (fun _ => by rfl) hb]
    rcases List.mem_append.mp ha with ha | ha
    · rw [specPart_rank 0 (fun _ => by rfl) ha]; omega
    · rw [specPart_rank 1 (fun _ => by rfl) ha]; omega

/-- Claim C5: whenever `validate` returns an error list, all Row violations
come first, then Column, then Box; within a kind in ascending group index,
and within a group in ascending digit value. -/
theorem claim_C5_error_order :
    ∀ (g : Sudoku) (E : List ValidationError),
      validate g = some (.error E) → List.Pairwise errLt E := by
  intro g E h
  rw [validate_error_eq h]
  exact pairwise_specErrors g

/-- Witness for C5 at the repository's test grid. -/
theorem claim_C5_witness : List.Pairwise errLt (specErrors sudokuTestGrid) :=
  claim_C5_error_order sudokuTestGrid (specErrors sudokuTestGrid)
    (validate_eq_spec sudokuTestGrid (by decide))

/-- Claim C4: on cell values 1–9 every table index of `validate` is in bounds
and `validate` returns normally; but `from_str` accepts the character `0`,
and a parsed grid containing a `0` cell makes `validate` panic (the unsigned
`val - 1` underflows), modelled by the `none` result. -/
theorem claim_C4_zero_cell_panics :
    (∀ g : Sudoku, GridWF g → allCells g (fun v => 1 ≤ v ∧ v ≤ 9) →
      ∃ E, validate g = some (.error E)) ∧
    (∀ g : Sudoku, allCells g (fun v => v ≤ 9) → (∃ row ∈ g, 0 ∈ row) →
      validate g = none) ∧
    fromStr zeroText = .ok zeroGrid ∧ validate zeroGrid = none := by
  refine ⟨?_, ?_, by decide, by decide⟩
  · intro g hwf hc
    exact ⟨specErrors g, validate_eq_spec g (allCells_cellsOf hc)⟩
  · rintro g hle ⟨row, hrow, hv⟩
    obtain ⟨i, j, hmem⟩ := mem_cellsOf_of_mem hrow hv
    unfold validate
    rw [scanCells_zero (cellsOf g) initTables (allCells_cellsOf hle) ⟨(i, j, 0), hmem, rfl⟩]
    rfl

/-- Witness for C4: a concrete grid with a `0` cell makes `validate` panic. -/
theorem claim_C4_witness : validate [[0]] = none :=
  claim_C4_zero_cell_panics.2.1 [[0]] (by decide) ⟨[0], by simp, by simp⟩

/-! ### Bounds and order of the coordinates inside one violation -/

theorem allCoords_bounds : ∀ p ∈ allCoords, p.1 ≤ 8 ∧ p.2 ≤ 8 := by decide

theorem allCoords_pairwise : List.Pairwise rmLt allCoords := by decide

theorem length_filter_and_le (p q : Nat × Nat × Nat → Bool) (l : List (Nat × Nat × Nat)) :
    (l.filter (fun a => p a && q a)).length ≤ (l.filter p).length := by
  induction l with
  | nil => simp
  | cons a l ih =>
    simp only [List.filter_cons]
    cases hp : p a <;> cases hq : q a <;> simp [hp, hq] <;> omega

theorem occValue_le_group (gi : Nat × Nat × Nat → Nat) (L : List (Nat × Nat × Nat)) (t v : Nat) :
    (occValue gi L t v).length ≤ L.countP (fun c => gi c == t) := by
  unfold occValue
  rw [List.length_map, List.countP_eq_length_filter]
  exact length_filter_and_le _ _ L

theorem countP_cellsOf_proj (g : Sudoku) (hwf : GridWF g) (Q : Nat × Nat → Bool) :
    (cellsOf g).countP (fun c => Q (c.1, c.2.1)) = allCoords.countP Q := by
  rw [← cellsOf_map_proj hwf, List.countP_map]
  rfl

theorem allCoords_count_fst (t : Nat) : allCoords.countP (fun p => p.1 == t) ≤ 9 := by
  by_cases ht : t < 9
  · revert ht; revert t; decide
  · have h0 : allCoords.countP (fun p => p.1 == t) = 0 := by
      rw [List.countP_eq_zero]
      intro p hp
      have := (allCoords_bounds p hp).1
      simp only [beq_iff_eq]
      omega
    omega

theorem allCoords_count_snd (t : Nat) : allCoords.countP (fun p => p.2 == t) ≤ 9 := by
  by_cases ht : t < 9
  · revert ht; revert t; decide
  · have h0 : allCoords.countP (fun p => p.2 == t) = 0 := by
      rw [List.countP_eq_zero]
      intro p hp
      have := (allCoords_bounds p hp).2
      simp only [beq_iff_eq]
      omega
    omega

theorem allCoords_count_box (t : Nat) :
    allCoords.countP (fun p => boxIndex p.1 p.2 == t) ≤ 9 := by
  by_cases ht : t < 9
  · revert ht; revert t; decide
  · have h0 : allCoords.countP (fun p => boxIndex p.1 p.2 == t) = 0 := by
      rw [List.countP_eq_zero]
      intro p hp
      have h1 := (allCoords_bounds p hp).1
      have h2 := (allCoords_bounds p hp).2
      have : boxIndex p.1 p.2 < 9 := boxIndex_lt (by omega) (by omega)
      simp only [beq_iff_eq]
      omega
    omega

/-- A rule group of the 9×9 grid holds at most 9 cells, so no occurrence list
is longer than 9 (the `Indexes` capacity bound of the source). -/
theorem occurrences_le_nine {g : Sudoku} (hwf : GridWF g) (ty : ValidationErrorType) (v : Nat) :
    (occurrences g ty v).length ≤ 9 := by
  cases ty with
  | Row t =>
    have h1 := occValue_le_group giRow (cellsOf g) t v
    have h2 : (cellsOf g).countP (fun c => giRow c == t) =
        allCoords.countP (fun p => p.1 == t) := by
      exact countP_cellsOf_proj g hwf (fun p => p.1 == t)
    have h3 := allCoords_count_fst t
    simpa [occurrences] using le_trans h1 (h2 ▸ h3)
  | Column t =>
    have h1 := occValue_le_group giCol (cellsOf g) t v
    have h2 : (cellsOf g).countP (fun c => giCol c == t) =
        allCoords.countP (fun p => p.2 == t) := by
      exact countP_cellsOf_proj g hwf (fun p => p.2 == t)
    have h3 := allCoords_count_snd t
    simpa [occurrences] using le_trans h1 (h2 ▸ h3)
  | Box t =>
    have h1 := occValue_le_group giBox (cellsOf g) t v
    have h2 : (cellsOf g).countP (fun c => giBox c == t) =
        allCoords.countP (fun p => boxIndex p.1 p.2 == t) := by
      exact countP_cellsOf_proj g hwf (fun p => boxIndex p.1 p.2 == t)
    have h3 := allCoords_count_box t
    simpa [occurrences] using le_trans h1 (h2 ▸ h3)

theorem occValue_mem_allCoords {g : Sudoku} (hwf : GridWF g)
    {gi : Nat × Nat × Nat → Nat} {t v : Nat} {p : Nat × Nat}
    (hp : p ∈ occValue gi (cellsOf g) t v) : p ∈ allCoords := by
  unfold occValue at hp
  obtain ⟨c, hcf, rfl⟩ := List.mem_map.mp hp
  have hcL : c ∈ cellsOf g := List.mem_of_mem_filter hcf
  rw [← cellsOf_map_proj hwf]
  exact List.mem_map.mpr ⟨c, hcL, rfl⟩

theorem occValue_pairwise {g : Sudoku} (hwf : GridWF g)
    (gi : Nat × Nat × Nat → Nat) (t v : Nat) :
    List.Pairwise rmLt (occValue gi (cellsOf g) t v) := by
  unfold occValue
  rw [List.pairwise_map]
  have h := allCoords_pairwise
  rw [← cellsOf_map_proj hwf, List.pairwise_map] at h
  exact h.sublist (List.filter_sublist _)

/-- Claim C9: every `Dublication` produced by `validate` on a grid with cells
in 1–9 carries between 2 and 9 coordinates, all inside the 9×9 board, in
row-major scan order. -/
theorem claim_C9_violation_invariant :
    ∀ (g : Sudoku) (E : List ValidationError), GridWF g →
      allCells g (fun v => 1 ≤ v ∧ v ≤ 9) →
      validate g = some (.error E) →
      ∀ e ∈ E, 2 ≤ (dupIndexes e).length ∧ (dupIndexes e).length ≤ 9 ∧
        (∀ p ∈ dupIndexes e, p.1 ≤ 8 ∧ p.2 ≤ 8) ∧
        List.Pairwise rmLt (dupIndexes e) := by
  intro g E hwf hc hval e he
  rw [validate_error_eq hval] at he
  cases e with
  | Dublication ty v idxs =>
    obtain ⟨rfl, hlen⟩ := specErrors_indexes hwf hc he
    refine ⟨by simpa [dupIndexes] using hlen,
      by simpa [dupIndexes] using occurrences_le_nine hwf ty v, ?_, ?_⟩
    · intro p hp
      simp only [dupIndexes] at hp
      refine allCoords_bounds p ?_
      cases ty with
      | Row t => exact occValue_mem_allCoords hwf hp
      | Column t => exact occValue_mem_allCoords hwf hp
      | Box t => exact occValue_mem_allCoords hwf hp
    · simp only [dupIndexes]
      cases ty with
      | Row t => exact occValue_pairwise hwf giRow t v
      | Column t => exact occValue_pairwise hwf giCol t v
      | Box t => exact occValue_pairwise hwf giBox t v

/-- Witness for C9: the Row 8 / value 7 violation of the repository's test
grid has 2 coordinates, in scan order. -/
theorem claim_C9_witness :
    2 ≤ (dupIndexes (ValidationError.Dublication (.Row 8) 7 [(8, 7), (8, 8)])).length ∧
    List.Pairwise rmLt (dupIndexes (ValidationError.Dublication (.Row 8) 7 [(8, 7), (8, 8)])) := by
  have h := claim_C9_violation_invariant sudokuTestGrid (specErrors sudokuTestGrid)
    (by decide) (by decide) (validate_eq_spec sudokuTestGrid (by decide))
    (ValidationError.Dublication (.Row 8) 7 [(8, 7), (8, 8)]) (by decide)
  exact ⟨h.1, h.2.2.2⟩

/-! ### Parser: fail-fast symbol errors, row-size and row-count errors -/

/-- A line that parses successfully: all digits, exactly 9 of them. -/
def rowGood (l : List Char) : Prop := (∀ ch ∈ l, ch.isDigit) ∧ l.length = 9

instance (l : List Char) : Decidable (rowGood l) := by unfold rowGood; infer_instance

theorem decodeRow_find {l : List Char} {c : Char}
    (h : l.find? (fun ch => !ch.isDigit) = some c) :
    decodeRow l = .error (.WrongSymbol c) := by
  induction l with
  | nil => simp [List.find?] at h
  | cons a l ih =>
    by_cases ha : a.isDigit
    · rw [List.find?_cons_of_neg _ (by simp [ha])] at h
      simp [decodeRow, rustToDigit, ha, ih h, Except.map]
    · rw [List.find?_cons_of_pos _ (by simp [ha])] at h
      obtain rfl := Option.some.inj h
      simp [decodeRow, rustToDigit, ha]

theorem decodeRow_digits {l : List Char} (h : ∀ ch ∈ l, ch.isDigit) :
    decodeRow l = .ok (l.map (fun ch => ch.toNat - 48)) := by
  induction l with
  | nil => rfl
  | cons a l ih =>
    have ha := h a (List.mem_cons_self _ _)
    simp [decodeRow, rustToDigit, ha,
      ih (fun ch hch => h ch (List.mem_cons_of_mem _ hch)), Except.map]

theorem parseRow_good {l : List Char} (k : Nat) (h : rowGood l) :
    parseRow k l = .ok (l.map (fun ch => ch.toNat - 48)) := by
  unfold parseRow
  rw [decodeRow_digits h.1]
  simp [h.2]

theorem parseRows_append (pre rest : List (List Char)) (hpre : ∀ l ∈ pre, rowGood l) :
    ∀ k, parseRows k (pre ++ rest) =
      (parseRows (k + pre.length) rest).map
        (fun rs => pre.map (fun l => l.map (fun ch => ch.toNat - 48)) ++ rs) := by
  induction pre with
  | nil =>
    intro k
    simp only [List.nil_append, List.length_nil, Nat.add_zero, List.map_nil]
    cases h : parseRows k rest <;> simp [Except.map]
  | cons l pre ih =>
    intro k
    have hl := parseRow_good k (hpre l (List.mem_cons_self _ _))
    simp only [List.cons_append, parseRows, hl, List.append_eq]
    rw [ih (fun l' hl' => hpre l' (List.mem_cons_of_mem _ hl')) (k + 1),
      show k + 1 + pre.length = k + (pre.length + 1) by omega]
    rcases hres : parseRows (k + (pre.length + 1)) rest with e | rs <;> simp [hres, Except.map]

/-- Claim C6: `from_str` decodes row by row, left to right; the first
non-digit character fails the whole parse immediately with `WrongSymbol`
carrying exactly that character, regardless of the offending row's length. -/
theorem claim_C6_fail_fast_symbol :
    ∀ (s : String) (pre : List (List Char)) (row : List Char) (post : List (List Char))
      (c : Char),
      rustLines s.data = pre ++ row :: post →
      (∀ l ∈ pre, rowGood l) →
      row.find? (fun ch => !ch.isDigit) = some c →
      fromStr s = .error (.WrongSymbol c) := by
  intro s pre row post c hlines hpre hfind
  unfold fromStr
  rw [hlines, parseRows_append pre (row :: post) hpre 0]
  have hrow : parseRow (0 + pre.length) row = .error (.WrongSymbol c) := by
    unfold parseRow
    rw [decodeRow_find hfind]
  rw [Nat.zero_add] at hrow
  simp [parseRows, hrow, Except.map]

/-- Witness for C6: a non-digit fails with `WrongSymbol` even though its row
also has length 3, not 9. -/
theorem claim_C6_witness : fromStr "1a2" = .error (.WrongSymbol 'a') :=
  claim_C6_fail_fast_symbol "1a2" [] ['1', 'a', '2'] [] 'a' (by decide) (by simp) (by decide)

/-- Claim C7: a row of all digits whose length is not 9 fails with
`WrongRowSize{ index, len }`, the rows after it never being examined. -/
theorem claim_C7_row_size_error :
    ∀ (s : String) (pre : List (List Char)) (row : List Char) (post : List (List Char)),
      rustLines s.data = pre ++ row :: post →
      (∀ l ∈ pre, rowGood l) →
      (∀ ch ∈ row, ch.isDigit) →
      row.length ≠ 9 →
      fromStr s = .error (.WrongRowSize pre.length row.length) := by
  intro s pre row post hlines hpre hdig hne
  unfold fromStr
  rw [hlines, parseRows_append pre (row :: post) hpre 0]
  have hrow : parseRow (0 + pre.length) row =
      .error (.WrongRowSize (0 + pre.length) row.length) := by
    unfold parseRow
    rw [decodeRow_digits hdig]
    simp [hne]
  rw [Nat.zero_add] at hrow
  simp [parseRows, hrow, Except.map]

/-- Witness for C7: a first row of 10 digits yields
`WrongRowSize { index: 0, len: 10 }`. -/
theorem claim_C7_witness : fromStr "1111111111" = .error (.WrongRowSize 0 10) :=
  claim_C7_row_size_error "1111111111" [] (List.replicate 10 '1') [] (by decide) (by simp)
    (by decide) (by decide)

/-- Claim C8: when every line decodes as exactly 9 digits but the line count
is not 9, `from_str` fails with `WrongColumnSize` carrying the row count
(despite the variant's name). -/
theorem claim_C8_row_count_error :
    ∀ (s : String), (∀ l ∈ rustLines s.data, rowGood l) →
      (rustLines s.data).length ≠ 9 →
      fromStr s = .error (.WrongColumnSize (rustLines s.data).length) := by
  intro s hall hne
  unfold fromStr
  have h := parseRows_append (rustLines s.data) [] hall 0
  rw [List.append_nil] at h
  rw [h]
  simp [parseRows, Except.map, hne]

/-- The 10-row input of the repository's `test_parse_wrong_sudoku_col`. -/
def tenRowsText : String :=
  "111111111\n111111111\n111111111\n111111111\n111111111\n111111111\n111111111\n111111111\n111111111\n111111111"

/-- Witness for C8: 10 otherwise-valid rows yield
`WrongColumnSize { column_count: 10 }`. -/
theorem claim_C8_witness : fromStr tenRowsText = .error (.WrongColumnSize 10) := by
  have h := claim_C8_row_count_error tenRowsText (by decide) (by decide)
  rwa [show (rustLines tenRowsText.data).length = 10 by decide] at h

/-- Claim C10: parsing the empty string fails with
`WrongColumnSize { column_count: 0 }`: the line iterator yields no rows, the
per-row checks pass vacuously, and the row-count check reports 0. -/
theorem claim_C10_empty_input : fromStr "" = .error (.WrongColumnSize 0) := by decide

/-! ### Display and the (failed) round trip -/

theorem digitChar_facts {v : Nat} (h1 : 1 ≤ v) (h9 : v ≤ 9) :
    (Nat.repr v).data = [Nat.digitChar v] ∧ (Nat.digitChar v).isDigit = true ∧
    rustToDigit (Nat.digitChar v) = some v ∧ Nat.digitChar v ≠ '\n' ∧
    Nat.digitChar v ≠ '\r' ∧ Nat.digitChar v ≠ ' ' := by
  interval_cases v <;> exact (by decide)

theorem mem_dispRowChars {row : List Nat} (hcells : ∀ v ∈ row, 1 ≤ v ∧ v ≤ 9)
    {ch : Char} (hch : ch ∈ dispRowChars row) :
    ch = ' ' ∨ ∃ v ∈ row, ch = Nat.digitChar v := by
  unfold dispRowChars at hch
  obtain ⟨q, hq, hchq⟩ := List.mem_flatMap.mp hch
  rcases List.mem_append.mp hchq with hsp | hrep
  · left
    by_cases h01 : 0 < q.1
    · rw [if_pos h01] at hsp
      exact List.mem_singleton.mp hsp
    · rw [if_neg h01] at hsp
      simp at hsp
  · have hqmem : q.2 ∈ row := mem_enumFrom_snd hq
    have hv := hcells q.2 hqmem
    rw [(digitChar_facts hv.1 hv.2).1] at hrep
    exact Or.inr ⟨q.2, hqmem, List.mem_singleton.mp hrep⟩

theorem dispRowChars_no_nl {row : List Nat} (hcells : ∀ v ∈ row, 1 ≤ v ∧ v ≤ 9) :
    '\n' ∉ dispRowChars row := by
  intro h
  rcases mem_dispRowChars hcells h with h | ⟨v, hv, h⟩
  · cases h
  · exact (digitChar_facts (hcells v hv).1 (hcells v hv).2).2.2.2.1 h.symm

theorem dispRowChars_no_cr {row : List Nat} (hcells : ∀ v ∈ row, 1 ≤ v ∧ v ≤ 9) :
    '\r' ∉ dispRowChars row := by
  intro h
  rcases mem_dispRowChars hcells h with h | ⟨v, hv, h⟩
  · cases h
  · exact (digitChar_facts (hcells v hv).1 (hcells v hv).2).2.2.2.2.1 h.symm

theorem stripCR_eq {l : List Char} (h : '\r' ∉ l) : stripCR l = l := by
  unfold stripCR
  rw [if_neg]
  intro hc
  exact h (List.mem_of_getLast?_eq_some hc)

theorem splitNL_append {l : List Char} (h : '\n' ∉ l) (cs : List Char) :
    splitNL (l ++ '\n' :: cs) = (l :: (splitNL cs).1, (splitNL cs).2) := by
  induction l with
  | nil => simp [splitNL]
  | cons c l ih =>
    have hc : c ≠ '\n' := fun hcc => h (hcc ▸ List.mem_cons_self _ _)
    have hl : '\n' ∉ l := fun hm => h (List.mem_cons_of_mem _ hm)
    simp [splitNL, ih hl, hc]

theorem rustLines_append {l : List Char} (hnl : '\n' ∉ l) (cs : List Char) :
    rustLines (l ++ '\n' :: cs) = stripCR l :: rustLines cs := by
  unfold rustLines
  rw [splitNL_append hnl]
  simp

theorem rustLines_join {L : List (List Char)}
    (h : ∀ l ∈ L, '\n' ∉ l ∧ '\r' ∉ l) :
    rustLines (L.flatMap (fun l => l ++ ['\n'])) = L := by
  induction L with
  | nil => rfl
  | cons l L ih =>
    have hl := h l (List.mem_cons_self _ _)
    rw [List.flatMap_cons,
      show (l ++ ['\n']) ++ L.flatMap (fun l => l ++ ['\n']) =
        l ++ '\n' :: L.flatMap (fun l => l ++ ['\n']) by simp,
      rustLines_append hl.1, stripCR_eq hl.2,
      ih (fun l' hl' => h l' (List.mem_cons_of_mem _ hl'))]

theorem rustLines_display {g : Sudoku} (hc : allCells g (fun v => 1 ≤ v ∧ v ≤ 9)) :
    rustLines (displayChars g) = g.map (fun row => dispRowChars row) := by
  unfold displayChars
  rw [show g.flatMap (fun row => dispRowChars row ++ ['\n']) =
      (g.map (fun row => dispRowChars row)).flatMap (fun l => l ++ ['\n']) from
    (List.flatMap_map (fun row => dispRowChars row) (fun l => l ++ ['\n']) g).symm]
  rw [rustLines_join]
  intro l hl
  obtain ⟨row, hrow, rfl⟩ := List.mem_map.mp hl
  exact ⟨dispRowChars_no_nl (fun v hv => hc row hrow v hv),
    dispRowChars_no_cr (fun v hv => hc row hrow v hv)⟩

theorem dispRowChars_two (v0 v1 : Nat) (rest : List Nat) (h0 : 1 ≤ v0 ∧ v0 ≤ 9) :
    ∃ tail, dispRowChars (v0 :: v1 :: rest) = Nat.digitChar v0 :: ' ' :: tail := by
  refine ⟨(Nat.repr v1).data ++ (List.enumFrom 2 rest).flatMap
    (fun p => (if 0 < p.1 then [' '] else []) ++ (Nat.repr p.2).data), ?_⟩
  show (List.enum (v0 :: v1 :: rest)).flatMap
    (fun p => (if 0 < p.1 then [' '] else []) ++ (Nat.repr p.2).data) = _
  rw [show List.enum (v0 :: v1 :: rest) = (0, v0) :: (1, v1) :: List.enumFrom 2 rest from rfl,
    List.flatMap_cons, List.flatMap_cons, (digitChar_facts h0.1 h0.2).1]
  simp

theorem decodeRow_digit_space (a : Char) (ha : a.isDigit = true) (l : List Char) :
    decodeRow (a :: ' ' :: l) = .error (.WrongSymbol ' ') := by
  simp [decodeRow, rustToDigit, ha, Except.map]

theorem filter_dispRow {row : List Nat} (hcells : ∀ v ∈ row, 1 ≤ v ∧ v ≤ 9) :
    (dispRowChars row).filter (fun c => c != ' ') = row.map Nat.digitChar := by
  have hflat : (dispRowChars row).filter (fun c => c != ' ') =
      row.enum.flatMap (fun q =>
        ((if 0 < q.1 then [' '] else []) ++ (Nat.repr q.2).data).filter (fun c => c != ' ')) :=
    List.filter_flatMap _ _ _
  rw [hflat]
  have hcong : row.enum.flatMap (fun q =>
        ((if 0 < q.1 then [' '] else []) ++ (Nat.repr q.2).data).filter (fun c => c != ' ')) =
      row.enum.flatMap (fun q : Nat × Nat => [Nat.digitChar q.2]) := by
    apply List.flatMap_congr
    intro q hq
    have hv := hcells q.2 (mem_enumFrom_snd hq)
    rw [List.filter_append, (digitChar_facts hv.1 hv.2).1]
    have h1 : ((if 0 < q.1 then [' '] else []) : List Char).filter (fun c => c != ' ') = [] := by
      by_cases h01 : 0 < q.1 <;> simp [h01]
    have h2 : ([Nat.digitChar q.2]).filter (fun c => c != ' ') = [Nat.digitChar q.2] := by
      simp [(digitChar_facts hv.1 hv.2).2.2.2.2.2]
    rw [h1, h2, List.nil_append]
  rw [hcong, ← List.map_eq_flatMap,
    show (fun q : Nat × Nat => Nat.digitChar q.2) = (Nat.digitChar ∘ Prod.snd) from rfl,
    ← List.map_map, List.enum_map_snd]

theorem stripSpaces_display {g : Sudoku} (hc : allCells g (fun v => 1 ≤ v ∧ v ≤ 9)) :
    (stripSpaces (display g)).data = g.flatMap (fun row => row.map Nat.digitChar ++ ['\n']) := by
  show (displayChars g).filter (fun c => c != ' ') = _
  unfold displayChars
  rw [List.filter_flatMap]
  apply List.flatMap_congr
  intro row hrow
  rw [List.filter_append, filter_dispRow (fun v hv => hc row hrow v hv)]
  rfl

theorem parseRows_digitRows : ∀ (G : List (List Nat)) (k : Nat),
    (∀ row ∈ G, (∀ v ∈ row, 1 ≤ v ∧ v ≤ 9) ∧ row.length = 9) →
    parseRows k (G.map (fun row => row.map Nat.digitChar)) = .ok G := by
  intro G
  induction G with
  | nil => intro k _; rfl
  | cons row G ih =>
    intro k h
    have hrow := h row (List.mem_cons_self _ _)
    have hdig : ∀ ch ∈ row.map Nat.digitChar, ch.isDigit = true := by
      intro ch hch
      obtain ⟨v, hv, rfl⟩ := List.mem_map.mp hch
      exact (digitChar_facts (hrow.1 v hv).1 (hrow.1 v hv).2).2.1
    have hdecode : decodeRow (row.map Nat.digitChar) = .ok row := by
      rw [decodeRow_digits hdig, List.map_map]
      have hid : ∀ v ∈ row, ((fun ch => ch.toNat - 48) ∘ Nat.digitChar) v = v := by
        intro v hv
        have hf := (digitChar_facts (hrow.1 v hv).1 (hrow.1 v hv).2).2.2.1
        have hd := (digitChar_facts (hrow.1 v hv).1 (hrow.1 v hv).2).2.1
        simp only [rustToDigit, hd, if_true, Option.some.injEq] at hf
        simpa using hf
      rw [List.map_congr_left hid]
      simp
    have hpr : parseRow k (row.map Nat.digitChar) = .ok row := by
      unfold parseRow
      rw [hdecode]
      simp [hrow.2]
    simp [parseRows, hpr, ih (k + 1) (fun r hr => h r (List.mem_cons_of_mem _ hr))]

/-- Counterexample for C1 as stated: rendering the all-ones grid and parsing
the text back does not return the grid — it fails on the first `' '`
separator that `Display` writes and `from_str` rejects. -/
theorem claim_C1_counterexample :
    fromStr (display onesGrid) ≠ .ok onesGrid ∧
    fromStr (display onesGrid) = .error (.WrongSymbol ' ') := by
  constructor <;> decide

/-- Claim C1 as amended: for every valid grid the parse of the rendered text
fails with `WrongSymbol ' '` (display separates the digits of a row by
spaces, which `from_str` does not accept); parsing becomes the identity once
the space separators are removed from the rendered text. -/
theorem claim_C1_roundtrip_amended :
    ∀ g : Sudoku, GridWF g → allCells g (fun v => 1 ≤ v ∧ v ≤ 9) →
      fromStr (display g) = .error (.WrongSymbol ' ') ∧
      fromStr (stripSpaces (display g)) = .ok g := by
  intro g hwf hc
  constructor
  · obtain ⟨r, grest, rfl⟩ : ∃ r grest, g = r :: grest := by
      cases g with
      | nil => exact absurd hwf.1 (by simp)
      | cons r grest => exact ⟨r, grest, rfl⟩
    obtain ⟨v0, v1, rest, rfl⟩ : ∃ v0 v1 rest, r = v0 :: v1 :: rest := by
      have hlen : r.length = 9 := hwf.2 r (List.mem_cons_self _ _)
      cases r with
      | nil => simp at hlen
      | cons v0 r' =>
        cases r' with
        | nil => simp at hlen
        | cons v1 rest => exact ⟨v0, v1, rest, rfl⟩
    unfold fromStr
    rw [show (display ((v0 :: v1 :: rest) :: grest)).data =
        displayChars ((v0 :: v1 :: rest) :: grest) from rfl,
      rustLines_display hc]
    have hv0 := hc (v0 :: v1 :: rest) (List.mem_cons_self _ _) v0 (List.mem_cons_self _ _)
    obtain ⟨tail, htail⟩ := dispRowChars_two v0 v1 rest hv0
    have hpr : parseRow 0 (dispRowChars (v0 :: v1 :: rest)) = .error (.WrongSymbol ' ') := by
      unfold parseRow
      rw [htail, decodeRow_digit_space _ ((digitChar_facts hv0.1 hv0.2).2.1) tail]
    simp [List.map_cons, parseRows, hpr]
  · unfold fromStr
    rw [stripSpaces_display hc,
      show g.flatMap (fun row => row.map Nat.digitChar ++ ['\n']) =
        (g.map (fun row => row.map Nat.digitChar)).flatMap (fun l => l ++ ['\n']) from
      (List.flatMap_map (fun row => row.map Nat.digitChar) (fun l => l ++ ['\n']) g).symm,
      rustLines_join ?hnl,
      parseRows_digitRows g 0 (fun row hrow => ⟨fun v hv => hc row hrow v hv, hwf.2 row hrow⟩)]
    · simp [hwf.1]
    · intro l hl
      obtain ⟨row, hrow, rfl⟩ := List.mem_map.mp hl
      constructor
      · intro hmem
        obtain ⟨v, hv, hveq⟩ := List.mem_map.mp hmem
        exact (digitChar_facts (hc row hrow v hv).1 (hc row hrow v hv).2).2.2.2.1 hveq
      · intro hmem
        obtain ⟨v, hv, hveq⟩ := List.mem_map.mp hmem
        exact (digitChar_facts (hc row hrow v hv).1 (hc row hrow v hv).2).2.2.2.2.1 hveq

/-- Witness for the amended C1 at the all-ones grid. -/
theorem claim_C1_witness :
    fromStr (display onesGrid) = .error (.WrongSymbol ' ') ∧
    fromStr (stripSpaces (display onesGrid)) = .ok onesGrid :=
  claim_C1_roundtrip_amended onesGrid (by decide) (by decide)
